import Mathlib

/-!
# Verification of cereal's smart-pointer serialization core

A shallow embedding of `include/cereal/types/memory.hpp` (the only source file
of this repository): the shared, weak and unique pointer save and load adapters,
the load-side deduplication protocol, the deferred-construction (load_and_construct)
code paths, and the `EnableSharedHelper` byte-image guard for types deriving from
`std::enable_shared_from_this`.

The registry collaborator (`ar.registerSharedPointer`, `ar.getSharedPointer`) and
the named-field framing (`_CEREAL_NVP`) live in `cereal.hpp`, which is not part of
this repository's sources; those are modelled from the spec's section-6 interface
(each such definition carries a doc comment starting `Modelled from the spec:`).

Object graphs are modelled as a heap (`List Obj`, index = address) where acyclicity
is represented, without loss of generality, by a topological numbering: every
shared/weak edge out of the object stored at address `a` targets an address `< a`.
-/

namespace Cereal

/-! ## Identifiers and the first-occurrence bit

`detail::msb_32bit` is `0x80000000`; the save/load code tests
`id & detail::msb_32bit` (memory.hpp:236, 254, 301). -/

/-- `detail::msb_32bit = 0x80000000`: the first-occurrence (top) bit of a 32-bit id. -/
def msb_32bit : Nat := 2 ^ 31

/-- The test `id & detail::msb_32bit` (memory.hpp:236, 254, 301). -/
def msbSet (id : Nat) : Bool := id &&& msb_32bit != 0

/-- `id & ~detail::msb_32bit` on a 32-bit id: clearing the first-occurrence bit.
Used by the load-side registry when keying a first-occurrence registration. -/
def stripMsb (id : Nat) : Nat := id &&& (msb_32bit - 1)

theorem msbSet_of_lt {n : Nat} (h : n < msb_32bit) : msbSet n = false := by
  have ht : n.testBit 31 = false := Nat.testBit_lt_two_pow h
  unfold msbSet msb_32bit
  rw [Nat.and_two_pow, ht]
  rfl

theorem msbSet_add_of_lt {n : Nat} (h : n < msb_32bit) : msbSet (msb_32bit + n) = true := by
  have ht : (2 ^ 31 + n).testBit 31 = true := by
    rw [Nat.testBit_two_pow_add_eq, Nat.testBit_lt_two_pow h]
    rfl
  unfold msbSet msb_32bit
  rw [Nat.and_two_pow, ht]
  simp

theorem stripMsb_add_of_lt {n : Nat} (h : n < msb_32bit) : stripMsb (msb_32bit + n) = n := by
  unfold stripMsb msb_32bit
  rw [Nat.and_pow_two_sub_one_eq_mod]
  unfold msb_32bit at h
  omega

theorem stripMsb_of_lt {n : Nat} (h : n < msb_32bit) : stripMsb n = n := by
  unfold stripMsb msb_32bit
  rw [Nat.and_pow_two_sub_one_eq_mod]
  unfold msb_32bit at h
  omega

/-! ## The object-graph data model

A pointee is an `Obj` holding a list of fields.  A field is either a plain
(non-pointer) value, a shared pointer (null or an address of another heap
object), a weak pointer, or a unique pointer owning its pointee inline
(exclusive ownership forbids aliasing, so the unique pointee is stored inline
rather than through the heap). -/

mutual
/-- A field value of a serializable object. -/
inductive Val : Type where
  | prim : Nat → Val
  | sharedP : Option Nat → Val
  | weakP : Option Nat → Val
  | uniqueP : Option Obj → Val

/-- A pointee: an aggregate of field values. -/
inductive Obj : Type where
  | mk : List Val → Obj
end

mutual
/-- The static type of a field, driving the load-side dispatch
(which `load` overload runs is selected by the C++ static type). -/
inductive Ty : Type where
  | primT : Ty
  | sharedT : OTy → Ty
  | weakT : OTy → Ty
  | uniqueT : OTy → Ty

/-- The static type of a pointee: the list of its field types. -/
inductive OTy : Type where
  | mk : List Ty → OTy
end

/-- One scalar on the wire.  With a binary archive, `_CEREAL_NVP` contributes no
bytes; the wire carries only the 32-bit identifiers, the one-byte validity flags
of unique pointers, and the pointees' own (externally serialized) field data. -/
inductive Tok : Type where
  | idTok : Nat → Tok
  | validTok : Nat → Tok
  | primTok : Nat → Tok
deriving DecidableEq

/-! ## The registry collaborator (spec section 6) -/

/-- Save-side registry state: the pointee-identity → identifier map
(insert-on-first-sight) and the next fresh plain identifier. -/
structure SaveSt : Type where
  reg : List (Nat × Nat)
  next : Nat
deriving DecidableEq

/-- The empty save-side registry; fresh plain identifiers start at 1
(0 is the reserved "no pointee" value). -/
def initSaveSt : SaveSt := { reg := [], next := 1 }

/-- Modelled from the spec: `registerOccurrence(identity) -> Identifier`
(section 6) — the save-side half of `ar.registerSharedPointer(ptr.get())`
(used at memory.hpp:233), which lives in `cereal.hpp`, outside this
repository's sources.  A null pointee gets the reserved identifier 0; a
first-sight identity is inserted and gets a fresh identifier with the
occurrence (top) bit set; a repeated identity gets its existing plain
identifier back. -/
def registerOccurrence (st : SaveSt) (addr : Option Nat) : Nat × SaveSt :=
  match addr with
  | none => (0, st)
  | some a =>
    match List.lookup a st.reg with
    | some i => (i, st)
    | none => (msb_32bit + st.next, { reg := (a, st.next) :: st.reg, next := st.next + 1 })

/-- Load-side state: the identifier → materialized-owner map and the heap of
objects materialized so far (a fresh owner's address is the heap length at its
creation). -/
structure LoadSt : Type where
  reg : List (Nat × Nat)
  heap : List Obj

/-- The empty load-side state. -/
def initLoadSt : LoadSt := { reg := [], heap := [] }

/-- Modelled from the spec: `registerMaterialized(id, owner)` (section 6) — the
load-side overload `ar.registerSharedPointer(id, ptr)` (used at
memory.hpp:277, 304), which lives in `cereal.hpp`, outside this repository's
sources.  The registration is keyed by the identifier with the occurrence bit
cleared, so that later back-references (which carry the plain identifier)
resolve to it. -/
def registerMaterialized (reg : List (Nat × Nat)) (id a : Nat) : List (Nat × Nat) :=
  (stripMsb id, a) :: reg

/-- Modelled from the spec: `resolveMaterialized(id) -> owner` (section 6) — the
load-side `ar.getSharedPointer(id)` (used at memory.hpp:286, 308), which lives
in `cereal.hpp`, outside this repository's sources.  The reserved identifier 0
resolves to the null owner; an unregistered identifier is a failure
("unknown identifier": stream corruption/truncation). -/
def resolveMaterialized (reg : List (Nat × Nat)) (id : Nat) : Option (Option Nat) :=
  if id = 0 then some none
  else
    match List.lookup id reg with
    | some a => some (some a)
    | none => none

/-! ## The save traversal

`save(Archive, PtrWrapper<shared_ptr<T> const&>)` (memory.hpp:228-240) resolves
an identifier for the pointee identity, emits it, and emits the pointee's data
iff the returned identifier has the first-occurrence bit set.
`save(Archive, weak_ptr)` (memory.hpp:189-195) locks the weak pointer and
delegates the resulting shared pointer to the same wrapper save.
`save(Archive, PtrWrapper<unique_ptr<T,D> const&>)` (memory.hpp:311-329) emits a
one-byte validity flag and, if the pointer is non-null, the pointee's data. -/

/-- `weak_ptr::lock()` (memory.hpp:193).  In this heap model every address holds
a live object, so locking a non-null weak pointer yields the same address and
locking a null/expired one yields null. -/
def lockW (pa : Option Nat) : Option Nat := pa

mutual
/-- Saving one field value.  `bound` is the topological bound of the saving
context: the address of the object whose field this is (or `heap.length` at the
root), so a well-formed shared/weak target satisfies `a < bound`. -/
def saveVal (heap : List Obj) (bound : Nat) (st : SaveSt) : Val → Option (List Tok × SaveSt)
  | .prim n => some ([.primTok n], st)
  | .sharedP pa => saveShared heap bound st pa
  | .weakP pa => saveShared heap bound st (lockW pa)
  | .uniqueP none => some ([.validTok 0], st)
  | .uniqueP (some ob) =>
    match saveObj heap bound st ob with
    | some (toks, st') => some (.validTok 1 :: toks, st')
    | none => none
termination_by v => (bound, sizeOf v)

/-- The shared-pointer wrapper save (memory.hpp:228-240): resolve the id,
emit it, and emit the pointee's data iff the first-occurrence bit is set. -/
def saveShared (heap : List Obj) (bound : Nat) (st : SaveSt) (pa : Option Nat) :
    Option (List Tok × SaveSt) :=
  match registerOccurrence st pa with
  | (id, st1) =>
    if msbSet id then
      match pa with
      | some a =>
        if _h2 : a < bound then
          match heap[a]? with
          | some ob =>
            match saveObj heap a st1 ob with
            | some (toks, st2) => some (.idTok id :: toks, st2)
            | none => none
          | none => none
        else none
      | none => none
    else some ([.idTok id], st1)
termination_by (bound, 0)

/-- Saving a pointee's data (`ar( _CEREAL_NVP("data", *ptr) )`): the external
aggregate serializer saves each field in order. -/
def saveObj (heap : List Obj) (bound : Nat) (st : SaveSt) : Obj → Option (List Tok × SaveSt)
  | .mk fs => saveFields heap bound st fs
termination_by ob => (bound, sizeOf ob)

/-- Saving a list of fields in order, threading the registry. -/
def saveFields (heap : List Obj) (bound : Nat) (st : SaveSt) :
    List Val → Option (List Tok × SaveSt)
  | [] => some ([], st)
  | v :: vs =>
    match saveVal heap bound st v with
    | some (toks1, st1) =>
      match saveFields heap bound st1 vs with
      | some (toks2, st2) => some (toks1 ++ toks2, st2)
      | none => none
    | none => none
termination_by vs => (bound, sizeOf vs)
end

/-! ## The load traversal

Dispatch among the `load` overloads is driven by the C++ static type, embodied
here by a `Ty` argument.  This section models the paths without
`load_and_construct` (`!traits::has_load_and_construct`): shared
(memory.hpp:291-309), weak (memory.hpp:198-205), unique (memory.hpp:367-385).
The `load_and_construct` paths involve raw storage and destructor calls and are
modelled separately below. -/

/-- Default construction of a field value (the `T()` reached through
`detail::Construct<T, Archive>::load_andor_construct()` at memory.hpp:303, 378
default-constructs the pointee, whose members are default-constructed). -/
def defaultVal : Ty → Val
  | .primT => .prim 0
  | .sharedT _ => .sharedP none
  | .weakT _ => .weakP none
  | .uniqueT _ => .uniqueP none

/-- Default construction of a pointee. -/
def defaultObj : OTy → Obj
  | .mk ts => .mk (ts.map defaultVal)

mutual
/-- The core of the shared-pointer wrapper load without `load_and_construct`
(memory.hpp:291-309), returning the owner (an address, or `none` for null):
read the id; on a first occurrence default-construct a fresh owner, register it
under the id *before* deserializing its fields (memory.hpp:303-305), then
deserialize the fields into it; otherwise resolve the id in the registry. -/
def loadSharedCore (oty : OTy) (toks : List Tok) (st : LoadSt) :
    Option (Option Nat × List Tok × LoadSt) :=
  match toks with
  | .idTok id :: ts =>
    if msbSet id then
      match st with
      | ⟨reg, heap⟩ =>
        let a := heap.length
        match loadObj oty ts ⟨registerMaterialized reg id a, heap ++ [defaultObj oty]⟩ with
        | some (ob, ts2, st2) => some (some a, ts2, ⟨st2.reg, st2.heap.set a ob⟩)
        | none => none
    else
      match resolveMaterialized st.reg id with
      | some pa => some (pa, ts, st)
      | none => none
  | _ => none
termination_by (2 * sizeOf oty + 1, 0)

/-- Loading one field value, dispatched on its static type. -/
def loadVal : Ty → List Tok → LoadSt → Option (Val × List Tok × LoadSt)
  | .primT, .primTok n :: ts, st => some (.prim n, ts, st)
  | .sharedT oty, toks, st =>
    match loadSharedCore oty toks st with
    | some (pa, ts, st') => some (.sharedP pa, ts, st')
    | none => none
  | .weakT oty, toks, st =>
    -- memory.hpp:198-205: load a temporary shared owner, then downgrade
    -- (`ptr = sptr`).
    match loadSharedCore oty toks st with
    | some (pa, ts, st') => some (.weakP pa, ts, st')
    | none => none
  | .uniqueT oty, .validTok b :: ts, st =>
    -- memory.hpp:367-385: read the validity byte; if nonzero, default-construct
    -- and deserialize the pointee (`ar( *ptr )`), else reset to null.
    if b != 0 then
      match loadObj oty ts st with
      | some (ob, ts2, st2) => some (.uniqueP (some ob), ts2, st2)
      | none => none
    else some (.uniqueP none, ts, st)
  | _, _, _ => none
termination_by t => (2 * sizeOf t, 1)

/-- Loading a pointee's data: the external aggregate serializer loads each
field in order. -/
def loadObj (oty : OTy) (toks : List Tok) (st : LoadSt) :
    Option (Obj × List Tok × LoadSt) :=
  match oty with
  | .mk fts =>
    match loadFields fts toks st with
    | some (vs, ts, st') => some (.mk vs, ts, st')
    | none => none
termination_by (2 * sizeOf oty, 0)

/-- Loading a list of fields in order, threading the registry and heap. -/
def loadFields : List Ty → List Tok → LoadSt → Option (List Val × List Tok × LoadSt)
  | [], ts, st => some ([], ts, st)
  | t :: fts, ts, st =>
    match loadVal t ts st with
    | some (v, ts1, st1) =>
      match loadFields fts ts1 st1 with
      | some (vs, ts2, st2) => some (v :: vs, ts2, st2)
      | none => none
    | none => none
termination_by fts => (2 * sizeOf fts, 2)
end

/-- Downgrading a shared owner to a weak reference (`ptr = sptr`,
memory.hpp:204). -/
def downgrade : Val → Val
  | .sharedP pa => .weakP pa
  | v => v

/-! ## Well-formed, well-typed graphs

`okVal Γ bound t v` says the field value `v` has static type `t` in a heap
typed by `Γ`, with every shared/weak target below the topological bound
`bound`.  Acyclicity of the graph is represented by such a topological
numbering (every finite DAG admits one, so no generality is lost). -/

/-- Well-typedness of a shared/weak pointer target: null, or an address below
the topological bound whose heap object has the pointee type. -/
def okPtr (Γ : List OTy) (bound : Nat) (oty : OTy) : Option Nat → Prop
  | none => True
  | some a => a < bound ∧ Γ[a]? = some oty

mutual
/-- Well-typedness of a field value under typing `Γ` and topological bound. -/
def okVal (Γ : List OTy) (bound : Nat) : Ty → Val → Prop
  | .primT, .prim _ => True
  | .sharedT oty, .sharedP pa => okPtr Γ bound oty pa
  | .weakT oty, .weakP pa => okPtr Γ bound oty pa
  | .uniqueT _, .uniqueP none => True
  | .uniqueT oty, .uniqueP (some ob) => okObj Γ bound oty ob
  | _, _ => False

/-- Well-typedness of a pointee. -/
def okObj (Γ : List OTy) (bound : Nat) : OTy → Obj → Prop
  | .mk fts, .mk vs => okFields Γ bound fts vs

/-- Well-typedness of a field list. -/
def okFields (Γ : List OTy) (bound : Nat) : List Ty → List Val → Prop
  | [], [] => True
  | ft :: fts, v :: vs => okVal Γ bound ft v ∧ okFields Γ bound fts vs
  | _, _ => False
end

/-- A heap is well typed when its typing has the same length and each object is
well typed at its own address as topological bound (all its shared/weak edges
point strictly below it). -/
def HeapWT (Γ : List OTy) (heap : List Obj) : Prop :=
  Γ.length = heap.length ∧
  ∀ a oty ob, Γ[a]? = some oty → heap[a]? = some ob → okObj Γ a oty ob

/-- The address translation induced by a save-side registry composed with a
load-side registry: original address → identifier → reconstructed address. -/
def phi (sreg lreg : List (Nat × Nat)) (a : Nat) : Option Nat :=
  match List.lookup a sreg with
  | some i => List.lookup i lreg
  | none => none

/-- Renaming a pointer target through `f` (null maps to null). -/
def mapPtr (f : Nat → Option Nat) : Option Nat → Option (Option Nat)
  | none => some none
  | some a =>
    match f a with
    | some a' => some (some a')
    | none => none

mutual
/-- Renaming every pointer target of a value through `f` (defined when every
target is in the domain of `f`).  The round-trip theorem shows the loaded value
is exactly the original renamed through `phi`. -/
def mapVal (f : Nat → Option Nat) : Val → Option Val
  | .prim n => some (.prim n)
  | .sharedP pa =>
    match mapPtr f pa with
    | some pb => some (.sharedP pb)
    | none => none
  | .weakP pa =>
    match mapPtr f pa with
    | some pb => some (.weakP pb)
    | none => none
  | .uniqueP none => some (.uniqueP none)
  | .uniqueP (some ob) =>
    match mapObj f ob with
    | some ob' => some (.uniqueP (some ob'))
    | none => none

/-- Renaming every pointer target of a pointee through `f`. -/
def mapObj (f : Nat → Option Nat) : Obj → Option Obj
  | .mk vs =>
    match mapFields f vs with
    | some vs' => some (.mk vs')
    | none => none

/-- Renaming every pointer target of a field list through `f`. -/
def mapFields (f : Nat → Option Nat) : List Val → Option (List Val)
  | [] => some []
  | v :: vs =>
    match mapVal f v with
    | some v' =>
      match mapFields f vs with
      | some vs' => some (v' :: vs')
      | none => none
    | none => none
end

/-! ## The `load_and_construct` code paths

These paths (shared: memory.hpp:244-287; unique: memory.hpp:333-363) allocate
raw `aligned_storage`, run the user's construction hook against the stream, and
manage the lifetime of the possibly-never-initialized buffer.  They are
modelled as outcome records of one load call, as a function of whether the
construction hook completes or throws. -/

/-- The observable outcome of a shared-pointer `load_and_construct` load
(memory.hpp:244-287) on a first-occurrence id. -/
structure SharedHookLoad : Type where
  /-- An exception propagates out of the load call to the caller. -/
  failureSurfaced : Bool
  /-- The `bool` stored in the cell created by `std::make_shared<bool>(false)`
  (memory.hpp:263) at the end of the call (`*valid = true` runs at
  memory.hpp:283 only after construction returned). -/
  validValue : Bool
  /-- Whether the captured `std::shared_ptr<bool> valid` handle itself is null.
  `std::make_shared` yields a non-null handle, so this is always `false`. -/
  validHandleNull : Bool
  /-- Placement-new construction of the pointee completed. -/
  constructed : Bool
  /-- The owner was registered in the load registry before the construction
  hook ran (memory.hpp:277 precedes memory.hpp:280). -/
  registeredBeforeHook : Bool
deriving DecidableEq

/-- The deleter lambda installed at memory.hpp:268-274:

    [=]( T * t ) { if( valid )  t->~T();  delete reinterpret_cast<ST *>( t ); }

`valid` is the captured `std::shared_ptr<bool>`; the condition `if( valid )`
tests whether that handle is non-null — not the `bool` it points to.  Returns
whether `t->~T()` is invoked when the owner is released. -/
def sharedHookDeleterRunsDtor (validHandleNull : Bool) (validValue : Bool) : Bool :=
  !validHandleNull

/-- Running the shared-pointer `load_and_construct` load on a first-occurrence
id (memory.hpp:254-284): create the valid flag cell holding `false`
(memory.hpp:263), allocate storage and install the deleter (memory.hpp:267-274),
register the owner (memory.hpp:277), run the construction hook
(memory.hpp:280), and on success set `*valid = true` (memory.hpp:283).  If the
hook throws, the exception unwinds before memory.hpp:283 runs. -/
def runSharedHookLoad (hookCompletes : Bool) : SharedHookLoad :=
  if hookCompletes then
    { failureSurfaced := false, validValue := true, validHandleNull := false,
      constructed := true, registeredBeforeHook := true }
  else
    { failureSurfaced := true, validValue := false, validHandleNull := false,
      constructed := false, registeredBeforeHook := true }

/-- The observable outcome of a unique-pointer `load_and_construct` load
(memory.hpp:333-363). -/
structure UniqueHookLoad : Type where
  /-- An exception propagates out of the load call to the caller. -/
  failureSurfaced : Bool
  /-- Raw `aligned_storage` was allocated (`new ST()`, memory.hpp:350). -/
  rawAllocated : Bool
  /-- The raw storage was freed during unwinding.  `std::unique_ptr<ST> stPtr`
  owns the buffer at type `ST` (memory.hpp:350), so its destructor frees the
  raw bytes without invoking `T::~T`. -/
  rawFreedOnUnwind : Bool
  /-- `T::~T` was invoked on the storage. -/
  pointeeDtorRan : Bool
  /-- Ownership was transferred to the target unique_ptr
  (`ptr.reset( reinterpret_cast<T *>( stPtr.release() ) )`, memory.hpp:359). -/
  ownershipTransferred : Bool
deriving DecidableEq

/-- Running the unique-pointer `load_and_construct` load (memory.hpp:337-363):
read the validity byte; if nonzero, allocate `ST` storage owned by a
`unique_ptr<ST>` (memory.hpp:350), run the construction hook through the load
wrapper inside the "data" field (memory.hpp:353-356), and only then transfer
ownership to the target (memory.hpp:359).  If the hook throws, unwinding
destroys `stPtr`, freeing the raw buffer without a `T::~T` call, and the
exception propagates. -/
def runUniqueHookLoad (isValid : Nat) (hookCompletes : Bool) : UniqueHookLoad :=
  if isValid != 0 then
    if hookCompletes then
      { failureSurfaced := false, rawAllocated := true, rawFreedOnUnwind := false,
        pointeeDtorRan := false, ownershipTransferred := true }
    else
      { failureSurfaced := true, rawAllocated := true, rawFreedOnUnwind := true,
        pointeeDtorRan := false, ownershipTransferred := false }
  else
    -- memory.hpp:362: `ptr.reset( nullptr )`; no storage, no hook.
    { failureSurfaced := false, rawAllocated := false, rawFreedOnUnwind := false,
      pointeeDtorRan := false, ownershipTransferred := false }

/-! ## Ordered action traces of the shared-pointer load paths

For the ordering claims, each shared-pointer load variant is transcribed as the
sequence of abstract actions it performs, in program order. -/

/-- An abstract action performed by a pointer load. -/
inductive LAct : Type where
  /-- A named-field read from the archive (`ar( _CEREAL_NVP(name, v) )`). -/
  | readField : String → LAct
  /-- Allocation of raw `aligned_storage` for the pointee. -/
  | allocRaw : LAct
  /-- `ar.registerSharedPointer(id, ptr)`: registering the (possibly
  not-yet-initialized) owner under `id`. -/
  | registerOwner : Nat → LAct
  /-- Default construction of the pointee
  (`detail::Construct<T, Archive>::load_andor_construct()`). -/
  | defaultConstruct : LAct
  /-- Entering the "data" field: recursive deserialization of the pointee's
  fields (through the construction hook or `ar( _CEREAL_NVP("data", *ptr) )`). -/
  | loadPointeeData : LAct
  /-- `*valid = true` (memory.hpp:283). -/
  | markValid : LAct
  /-- `ar.getSharedPointer(id)`: resolving a back-reference. -/
  | resolveBackRef : Nat → LAct
deriving DecidableEq

/-- Program-order action trace of the shared-pointer load with
`load_and_construct` (memory.hpp:244-287): read "id" (252); if the
first-occurrence bit is set, allocate storage (258-274), register the owner
under the id (277), deserialize the pointee data through the construction hook
(280), mark valid (283); else resolve the back-reference (286). -/
def loadSharedHookTrace (id : Nat) : List LAct :=
  .readField "id" ::
    (if msbSet id then
      [.allocRaw, .registerOwner id, .loadPointeeData, .markValid]
    else [.resolveBackRef id])

/-- Program-order action trace of the shared-pointer load without
`load_and_construct` (memory.hpp:291-309): read "id" (299); if the
first-occurrence bit is set, default-construct (303), register the owner under
the id (304), deserialize the pointee's fields (305); else resolve the
back-reference (308). -/
def loadSharedNoHookTrace (id : Nat) : List LAct :=
  .readField "id" ::
    (if msbSet id then
      [.defaultConstruct, .registerOwner id, .loadPointeeData]
    else [.resolveBackRef id])

/-! ## Named-field framing traces (spec section 6, `emitField`/`consumeField`)

Each adapter path is transcribed as the ordered list of framing names it passes
to the archive: `some name` for a call wrapped in `_CEREAL_NVP(name, ...)`,
`none` for a bare `ar( v )` call with no name. -/

/-- Frames emitted by the shared-pointer wrapper save (memory.hpp:228-240):
"id" (234), then "data" iff the first-occurrence bit is set (238). -/
def saveSharedFrames (firstOccurrence : Bool) : List (Option String) :=
  some "id" :: (if firstOccurrence then [some "data"] else [])

/-- Frames consumed by the shared-pointer `load_and_construct` load
(memory.hpp:244-287): "id" (252), then "data" (150 or 168, reached via 280)
iff the first-occurrence bit is set. -/
def loadSharedHookFrames (firstOccurrence : Bool) : List (Option String) :=
  some "id" :: (if firstOccurrence then [some "data"] else [])

/-- Frames consumed by the shared-pointer load without `load_and_construct`
(memory.hpp:291-309): "id" (299), then "data" (305) iff the first-occurrence
bit is set. -/
def loadSharedNoHookFrames (firstOccurrence : Bool) : List (Option String) :=
  some "id" :: (if firstOccurrence then [some "data"] else [])

/-- Frames emitted by the unique-pointer wrapper save (memory.hpp:311-329):
"valid" (323 or 326), then "data" iff the pointer is non-null (327). -/
def saveUniqueFrames (present : Bool) : List (Option String) :=
  some "valid" :: (if present then [some "data"] else [])

/-- Frames consumed by the unique-pointer `load_and_construct` load
(memory.hpp:333-363): "valid" (338), then "data" (356) iff the validity byte is
nonzero. -/
def loadUniqueHookFrames (present : Bool) : List (Option String) :=
  some "valid" :: (if present then [some "data"] else [])

/-- Frames consumed by the unique-pointer load without `load_and_construct`
(memory.hpp:367-385): "valid" (372), then — iff the validity byte is nonzero —
the pointee payload through the bare call `ar( *ptr )` (379), which carries no
field name. -/
def loadUniqueNoHookFrames (present : Bool) : List (Option String) :=
  some "valid" :: (if present then [none] else [])

/-! ## The `EnableSharedHelper` byte-image guard (memory.hpp:109-154)

Memory is byte-addressed (`Nat → Nat`).  The `enable_shared_from_this` base
subobject of the pointee occupies the byte range
`[baseOff, baseOff + parentSize)`, where `parentSize = sizeof(ParentType)`
(memory.hpp:114-115); `baseOff` is the address produced by the
`static_cast<ParentType *>(ptr)` base-subobject cast (memory.hpp:121). -/

/-- Byte-addressed memory. -/
def Mem : Type := Nat → Nat

/-- Layout of the `enable_shared_from_this` base subobject inside the pointee. -/
structure SFTLayout : Type where
  /-- Address of the base subobject (`static_cast<ParentType *>(ptr)`). -/
  baseOff : Nat
  /-- `sizeof(ParentType)` where `ParentType = std::enable_shared_from_this<BaseType>`. -/
  parentSize : Nat

/-- The `EnableSharedHelper` constructor (memory.hpp:120-125):
`std::memcpy( &itsState, itsPtr, sizeof(ParentType) )` — capture the exact byte
image of the base subobject. -/
def captureState (L : SFTLayout) (m : Mem) : List Nat :=
  (List.range L.parentSize).map fun i => m (L.baseOff + i)

/-- `EnableSharedHelper::restore` (memory.hpp:128-131):
`std::memcpy( itsPtr, &itsState, sizeof(ParentType) )` — overwrite the base
subobject with the captured image, leaving every other byte unchanged. -/
def restoreState (L : SFTLayout) (snap : List Nat) (m : Mem) : Mem :=
  fun a =>
    if L.baseOff ≤ a ∧ a < L.baseOff + L.parentSize then snap.getD (a - L.baseOff) (m a)
    else m a

/-- `loadAndConstructSharedPtr` for a pointee deriving from
`std::enable_shared_from_this` (memory.hpp:143-154): capture the base
subobject's bytes, run the construction step (the `ar( _CEREAL_NVP("data",
loadWrapper) )` call, an arbitrary transformation of memory), then restore the
captured image. -/
def loadAndConstructSharedPtrSFT (L : SFTLayout) (step : Mem → Mem) (m : Mem) : Mem :=
  let snap := captureState L m
  let m1 := step m
  restoreState L snap m1

/-! ## Association-list helper lemmas -/

theorem mem_of_lookup_eq_some {l : List (Nat × Nat)} {k v : Nat}
    (h : List.lookup k l = some v) : (k, v) ∈ l := by
  rcases List.lookup_eq_some_iff.mp h with ⟨l1, l2, rfl, -⟩
  simp

theorem key_mem_of_lookup_eq_some {l : List (Nat × Nat)} {k v : Nat}
    (h : List.lookup k l = some v) : k ∈ l.map Prod.fst := by
  exact List.mem_map.mpr ⟨(k, v), mem_of_lookup_eq_some h, rfl⟩

theorem lookup_eq_some_of_mem_of_nodup {l : List (Nat × Nat)} {k v : Nat}
    (h : (k, v) ∈ l) (hnd : (l.map Prod.fst).Nodup) : List.lookup k l = some v := by
  induction l with
  | nil => simp at h
  | cons p tl ih =>
    match p with
    | (k', v') =>
      simp only [List.map_cons, List.nodup_cons] at hnd
      rcases List.mem_cons.mp h with heq | htl
      · cases heq
        exact List.lookup_cons_self
      · have hk : k ≠ k' := by
          intro hkk
          subst hkk
          exact hnd.1 (List.mem_map.mpr ⟨(k, v), htl, rfl⟩)
        simp only [List.lookup_cons]
        rw [show (k == k') = false by simp [hk]]
        exact ih htl hnd.2

theorem lookup_append_of_mem_right {ns os : List (Nat × Nat)} {k v : Nat}
    (hnd : (((ns ++ os).map Prod.fst)).Nodup) (h : List.lookup k os = some v) :
    List.lookup k (ns ++ os) = some v := by
  rw [List.lookup_append]
  have hk : k ∈ os.map Prod.fst := key_mem_of_lookup_eq_some h
  have hdisj : List.Disjoint (ns.map Prod.fst) (os.map Prod.fst) := by
    apply List.disjoint_of_nodup_append
    simpa using hnd
  have hnone : List.lookup k ns = none := by
    rw [List.lookup_eq_none_iff]
    intro p hp
    simp only [bne_iff_ne, ne_eq]
    intro hkp
    exact hdisj (hkp ▸ List.mem_map.mpr ⟨p, hp, rfl⟩) hk
  rw [hnone, Option.none_or, h]

/-- `phi` is monotone under registry extension, as long as the extended
registries keep their keys distinct. -/
theorem phi_extend {sreg sreg' lreg lreg' : List (Nat × Nat)}
    (hs : ∃ ns, sreg' = ns ++ sreg) (hl : ∃ nl, lreg' = nl ++ lreg)
    (hsnd : (sreg'.map Prod.fst).Nodup) (hlnd : (lreg'.map Prod.fst).Nodup)
    {a y : Nat} (h : phi sreg lreg a = some y) : phi sreg' lreg' a = some y := by
  unfold phi at h ⊢
  cases hi : List.lookup a sreg with
  | none => rw [hi] at h; exact absurd h (by simp)
  | some i =>
    rw [hi] at h
    rcases hs with ⟨ns, rfl⟩
    rcases hl with ⟨nl, rfl⟩
    rw [lookup_append_of_mem_right hsnd hi]
    exact lookup_append_of_mem_right hlnd h

/-- `mapPtr` is monotone in the renaming function. -/
theorem mapPtr_mono {f g : Nat → Option Nat} (hfg : ∀ a y, f a = some y → g a = some y)
    (pa : Option Nat) : ∀ {pb : Option Nat}, mapPtr f pa = some pb → mapPtr g pa = some pb := by
  cases pa with
  | none => intro pb h; exact h
  | some a =>
    intro pb h
    simp only [mapPtr] at h ⊢
    cases hfa : f a with
    | none => rw [hfa] at h; exact absurd h (by simp)
    | some a' => rw [hfa] at h; rw [hfg a a' hfa]; exact h

mutual
/-- `mapVal` is monotone in the renaming function. -/
theorem mapVal_mono {f g : Nat → Option Nat} (hfg : ∀ a y, f a = some y → g a = some y)
    (v : Val) : ∀ {v' : Val}, mapVal f v = some v' → mapVal g v = some v' := by
  cases v with
  | prim n => intro v' h; exact h
  | sharedP pa =>
    intro v' h
    unfold mapVal at h ⊢
    cases hfa : mapPtr f pa with
    | none => rw [hfa] at h; exact absurd h (by simp)
    | some pb => rw [hfa] at h; rw [mapPtr_mono hfg pa hfa]; exact h
  | weakP pa =>
    intro v' h
    unfold mapVal at h ⊢
    cases hfa : mapPtr f pa with
    | none => rw [hfa] at h; exact absurd h (by simp)
    | some pb => rw [hfa] at h; rw [mapPtr_mono hfg pa hfa]; exact h
  | uniqueP po =>
    cases po with
    | none => intro v' h; exact h
    | some ob =>
      intro v' h
      unfold mapVal at h ⊢
      cases hmo : mapObj f ob with
      | none => rw [hmo] at h; exact absurd h (by simp)
      | some ob' =>
        rw [hmo] at h
        rw [mapObj_mono hfg ob hmo]
        exact h
termination_by (sizeOf v, 0)

/-- `mapObj` is monotone in the renaming function. -/
theorem mapObj_mono {f g : Nat → Option Nat} (hfg : ∀ a y, f a = some y → g a = some y)
    (ob : Obj) : ∀ {ob' : Obj}, mapObj f ob = some ob' → mapObj g ob = some ob' := by
  cases ob with
  | mk vs =>
    intro ob' h
    unfold mapObj at h ⊢
    cases hms : mapFields f vs with
    | none => rw [hms] at h; exact absurd h (by simp)
    | some vs' =>
      rw [hms] at h
      rw [mapFields_mono hfg vs hms]
      exact h
termination_by (sizeOf ob, 0)

/-- `mapFields` is monotone in the renaming function. -/
theorem mapFields_mono {f g : Nat → Option Nat} (hfg : ∀ a y, f a = some y → g a = some y)
    (vs : List Val) : ∀ {vs' : List Val}, mapFields f vs = some vs' → mapFields g vs = some vs' := by
  cases vs with
  | nil => intro vs' h; exact h
  | cons v tl =>
    intro vs' h
    unfold mapFields at h ⊢
    cases hv : mapVal f v with
    | none => rw [hv] at h; exact absurd h (by simp)
    | some v1 =>
      rw [hv] at h
      cases htl : mapFields f tl with
      | none => rw [htl] at h; exact absurd h (by simp)
      | some tl1 =>
        rw [htl] at h
        rw [mapVal_mono hfg v hv, mapFields_mono hfg tl htl]
        exact h
termination_by (sizeOf vs, 1)
end

/-! ## The round-trip simulation invariant -/

/-- Bounded association lists with distinct keys have length at most the key
bound. -/
theorem length_le_of_nodup_keys_lt {l : List (Nat × Nat)} {n : Nat}
    (hnd : (l.map Prod.fst).Nodup) (hlt : ∀ p ∈ l, p.1 < n) : l.length ≤ n := by
  have hsub : l.map Prod.fst ⊆ List.range n := by
    intro x hx
    rcases List.mem_map.mp hx with ⟨p, hp, rfl⟩
    exact List.mem_range.mpr (hlt p hp)
  have hper := (List.subperm_of_subset hnd hsub).length_le
  simpa using hper

/-- Members of a list with distinct first components are determined by their
first component. -/
theorem mem_eq_of_fst_nodup {l : List (Nat × Nat)} {p q : Nat × Nat}
    (hnd : (l.map Prod.fst).Nodup) (hp : p ∈ l) (hq : q ∈ l) (h : p.1 = q.1) : p = q :=
  List.inj_on_of_nodup_map hnd hp hq h

/-- Members of a list with distinct second components are determined by their
second component. -/
theorem mem_eq_of_snd_nodup {l : List (Nat × Nat)} {p q : Nat × Nat}
    (hnd : (l.map Prod.snd).Nodup) (hp : p ∈ l) (hq : q ∈ l) (h : p.2 = q.2) : p = q :=
  List.inj_on_of_nodup_map hnd hp hq h

/-- The simulation invariant between the save-side registry and the load-side
registry/heap at matched points of the traversal.  An entry `(a, i)` records
that original address `a` was assigned plain identifier `i`; the load side has
registered some reconstructed address under `i`.  Entries whose original
address lies strictly below the current topological bound are complete: the
object loaded for them is the original object with every pointer target
renamed through `phi`. -/
structure SimInv (Γ : List OTy) (heap : List Obj) (bound : Nat)
    (s : SaveSt) (l : LoadSt) : Prop where
  nextEq : s.next = s.reg.length + 1
  keysNodup : (s.reg.map Prod.fst).Nodup
  keysLt : ∀ p ∈ s.reg, p.1 < heap.length
  idsBounds : ∀ p ∈ s.reg, 1 ≤ p.2 ∧ p.2 < s.next
  idsNodup : (s.reg.map Prod.snd).Nodup
  lkeysEq : l.reg.map Prod.fst = s.reg.map Prod.snd
  lvalsLt : ∀ q ∈ l.reg, q.2 < l.heap.length
  lvalsNodup : (l.reg.map Prod.snd).Nodup
  content : ∀ p ∈ s.reg, p.1 < bound →
    ∃ a' ob ob', List.lookup p.2 l.reg = some a' ∧ heap[p.1]? = some ob ∧
      l.heap[a']? = some ob' ∧ mapObj (phi s.reg l.reg) ob = some ob'

/-- How one (sub-)save/(sub-)load step may change the states: the registries
grow by fresh entries (new save entries stay below the bound), and the loaded
heap grows, leaving already-present addresses untouched. -/
structure SimStep (bound : Nat) (s s' : SaveSt) (l l' : LoadSt) : Prop where
  sregExt : ∃ ns, s'.reg = ns ++ s.reg ∧ ∀ p ∈ ns, p.1 < bound
  nextLe : s.next ≤ s'.next
  lregExt : ∃ nl, l'.reg = nl ++ l.reg
  heapLe : l.heap.length ≤ l'.heap.length
  heapFrame : ∀ j, j < l.heap.length → l'.heap[j]? = l.heap[j]?

theorem simStep_refl (bound : Nat) (s : SaveSt) (l : LoadSt) : SimStep bound s s l l :=
  ⟨⟨[], rfl, by simp⟩, Nat.le_refl _, ⟨[], rfl⟩, Nat.le_refl _, fun _ _ => rfl⟩

theorem simStep_trans {bound : Nat} {s s1 s2 : SaveSt} {l l1 l2 : LoadSt}
    (h1 : SimStep bound s s1 l l1) (h2 : SimStep bound s1 s2 l1 l2) :
    SimStep bound s s2 l l2 := by
  refine ⟨?_, Nat.le_trans h1.nextLe h2.nextLe, ?_, Nat.le_trans h1.heapLe h2.heapLe, ?_⟩
  · rcases h1.sregExt with ⟨ns1, he1, hb1⟩
    rcases h2.sregExt with ⟨ns2, he2, hb2⟩
    refine ⟨ns2 ++ ns1, by rw [he2, he1, List.append_assoc], ?_⟩
    intro p hp
    rcases List.mem_append.mp hp with h | h
    · exact hb2 p h
    · exact hb1 p h
  · rcases h1.lregExt with ⟨nl1, he1⟩
    rcases h2.lregExt with ⟨nl2, he2⟩
    exact ⟨nl2 ++ nl1, by rw [he2, he1, List.append_assoc]⟩
  · intro j hj
    rw [h2.heapFrame j (Nat.lt_of_lt_of_le hj h1.heapLe), h1.heapFrame j hj]

theorem simStep_mono_bound {bound bound' : Nat} {s s' : SaveSt} {l l' : LoadSt}
    (hb : bound ≤ bound') (h : SimStep bound s s' l l') : SimStep bound' s s' l l' := by
  refine ⟨?_, h.nextLe, h.lregExt, h.heapLe, h.heapFrame⟩
  rcases h.sregExt with ⟨ns, he, hlt⟩
  exact ⟨ns, he, fun p hp => Nat.lt_of_lt_of_le (hlt p hp) hb⟩

theorem simInv_mono_bound {Γ : List OTy} {heap : List Obj} {bound bound' : Nat}
    {s : SaveSt} {l : LoadSt} (hb : bound' ≤ bound) (h : SimInv Γ heap bound s l) :
    SimInv Γ heap bound' s l :=
  ⟨h.nextEq, h.keysNodup, h.keysLt, h.idsBounds, h.idsNodup, h.lkeysEq, h.lvalsLt,
   h.lvalsNodup, fun p hp hlt => h.content p hp (Nat.lt_of_lt_of_le hlt hb)⟩

/-- The load-side registry keys are distinct (they are the save-side
identifiers). -/
theorem SimInv.lkeysNodup {Γ : List OTy} {heap : List Obj} {bound : Nat}
    {s : SaveSt} {l : LoadSt} (h : SimInv Γ heap bound s l) :
    (l.reg.map Prod.fst).Nodup := by
  rw [h.lkeysEq]
  exact h.idsNodup

/-- The fresh save-side identifier is below `msb_32bit` whenever the heap is
smaller than `msb_32bit` (there are at most `heap.length` registered
identities). -/
theorem SimInv.next_le_heap {Γ : List OTy} {heap : List Obj} {bound : Nat}
    {s : SaveSt} {l : LoadSt} (h : SimInv Γ heap bound s l) :
    s.next ≤ heap.length + 1 := by
  have := length_le_of_nodup_keys_lt h.keysNodup h.keysLt
  have h2 := h.nextEq
  omega

/-! ## The simulation proof -/

mutual
/-- Saving a well-typed field value succeeds, its emitted tokens load back (at
the same static type, with any continuation of the stream) to exactly the
original value with pointer targets renamed through `phi`, and the invariant is
maintained. -/
theorem simVal (Γ : List OTy) (heap : List Obj) (bound : Nat) (s : SaveSt) (l : LoadSt)
    (t : Ty) (v : Val)
    (hwt : HeapWT Γ heap) (hb : bound ≤ heap.length) (hsz : heap.length < msb_32bit)
    (inv : SimInv Γ heap bound s l) (hok : okVal Γ bound t v) :
    ∃ toks s' v' l',
      saveVal heap bound s v = some (toks, s') ∧
      (∀ rest, loadVal t (toks ++ rest) l = some (v', rest, l')) ∧
      SimInv Γ heap bound s' l' ∧
      mapVal (phi s'.reg l'.reg) v = some v' ∧
      SimStep bound s s' l l' := by
  cases t with
  | primT =>
    cases v with
    | prim n =>
      refine ⟨[.primTok n], s, .prim n, l, by simp [saveVal], ?_, inv, by simp [mapVal],
        simStep_refl bound s l⟩
      intro rest
      simp [loadVal]
    | sharedP pa => simp only [okVal] at hok
    | weakP pa => simp only [okVal] at hok
    | uniqueP po => simp only [okVal] at hok
  | sharedT oty =>
    cases v with
    | prim n => simp only [okVal] at hok
    | sharedP pa =>
      simp only [okVal] at hok
      obtain ⟨toks, s', pa', l', hsave, hload, inv', hmap, hstep⟩ :=
        simShared Γ heap bound s l oty pa hwt hb hsz inv hok
      refine ⟨toks, s', .sharedP pa', l', ?_, ?_, inv', ?_, hstep⟩
      · simp only [saveVal]
        exact hsave
      · intro rest
        simp only [loadVal, hload rest]
      · simp only [mapVal, hmap]
    | weakP pa => simp only [okVal] at hok
    | uniqueP po => simp only [okVal] at hok
  | weakT oty =>
    cases v with
    | prim n => simp only [okVal] at hok
    | sharedP pa => simp only [okVal] at hok
    | weakP pa =>
      simp only [okVal] at hok
      obtain ⟨toks, s', pa', l', hsave, hload, inv', hmap, hstep⟩ :=
        simShared Γ heap bound s l oty pa hwt hb hsz inv hok
      refine ⟨toks, s', .weakP pa', l', ?_, ?_, inv', ?_, hstep⟩
      · simp only [saveVal, lockW]
        exact hsave
      · intro rest
        simp only [loadVal, hload rest]
      · simp only [mapVal, hmap]
    | uniqueP po => simp only [okVal] at hok
  | uniqueT oty =>
    cases v with
    | prim n => simp only [okVal] at hok
    | sharedP pa => simp only [okVal] at hok
    | weakP pa => simp only [okVal] at hok
    | uniqueP po =>
      cases po with
      | none =>
        refine ⟨[.validTok 0], s, .uniqueP none, l, by simp [saveVal], ?_, inv,
          by simp [mapVal], simStep_refl bound s l⟩
        intro rest
        simp [loadVal]
      | some ob =>
        simp only [okVal] at hok
        obtain ⟨toks, s', ob', l', hsave, hload, inv', hmap, hstep⟩ :=
          simObj Γ heap bound s l oty ob hwt hb hsz inv hok
        refine ⟨.validTok 1 :: toks, s', .uniqueP (some ob'), l', ?_, ?_, inv', ?_, hstep⟩
        · simp only [saveVal, hsave]
        · intro rest
          simp only [List.cons_append, loadVal]
          rw [hload rest]
          simp
        · simp only [mapVal, hmap]
termination_by (bound, sizeOf v)

/-- Saving a well-typed shared/weak pointer target succeeds and loads back to
the `phi`-renamed target, maintaining the invariant. -/
theorem simShared (Γ : List OTy) (heap : List Obj) (bound : Nat) (s : SaveSt) (l : LoadSt)
    (oty : OTy) (pa : Option Nat)
    (hwt : HeapWT Γ heap) (hb : bound ≤ heap.length) (hsz : heap.length < msb_32bit)
    (inv : SimInv Γ heap bound s l) (hok : okPtr Γ bound oty pa) :
    ∃ toks s' pa' l',
      saveShared heap bound s pa = some (toks, s') ∧
      (∀ rest, loadSharedCore oty (toks ++ rest) l = some (pa', rest, l')) ∧
      SimInv Γ heap bound s' l' ∧
      mapPtr (phi s'.reg l'.reg) pa = some pa' ∧
      SimStep bound s s' l l' := by
  cases pa with
  | none =>
    have h0 : msbSet 0 = false := by decide
    refine ⟨[.idTok 0], s, none, l, ?_, ?_, inv, by simp [mapPtr], simStep_refl bound s l⟩
    · rw [saveShared]
      simp [registerOccurrence, h0]
    · intro rest
      rw [List.singleton_append, loadSharedCore]
      simp [h0, resolveMaterialized]
  | some a =>
    obtain ⟨ha, hΓ⟩ := hok
    cases hlk : List.lookup a s.reg with
    | some i =>
      -- Back-reference: the identity was registered before; emit the plain id.
      have memai : (a, i) ∈ s.reg := mem_of_lookup_eq_some hlk
      have hib : 1 ≤ i ∧ i < s.next := inv.idsBounds _ memai
      have hnle := inv.next_le_heap
      have hilt : i < msb_32bit := by omega
      have hmsb : msbSet i = false := msbSet_of_lt hilt
      have hi0 : i ≠ 0 := by omega
      obtain ⟨a', ob, ob', hlkp, hhp, hlp, hmp⟩ := inv.content _ memai ha
      have hlkp' : List.lookup i l.reg = some a' := hlkp
      refine ⟨[.idTok i], s, some a', l, ?_, ?_, inv, ?_, simStep_refl bound s l⟩
      · rw [saveShared]
        simp [registerOccurrence, hlk, hmsb]
      · intro rest
        rw [List.singleton_append, loadSharedCore]
        simp [hmsb, resolveMaterialized, hi0, hlkp']
      · simp only [mapPtr, phi, hlk, hlkp']
    | none =>
      -- First occurrence: fresh id with the occurrence bit, register on both
      -- sides before descending into the pointee.
      have hfresh : a ∉ s.reg.map Prod.fst := by
        intro hmem
        rcases List.mem_map.mp hmem with ⟨p, hp, hp1⟩
        have := List.lookup_eq_none_iff.mp hlk p hp
        simp only [bne_iff_ne, ne_eq] at this
        exact this hp1.symm
      have haheap : a < heap.length := Nat.lt_of_lt_of_le ha hb
      have hkeys1 : (((a, s.next) :: s.reg).map Prod.fst).Nodup := by
        simp only [List.map_cons, List.nodup_cons]
        exact ⟨hfresh, inv.keysNodup⟩
      have hkeys1lt : ∀ p ∈ (a, s.next) :: s.reg, p.1 < heap.length := by
        intro p hp
        rcases List.mem_cons.mp hp with rfl | hp
        · exact haheap
        · exact inv.keysLt p hp
      have hlen1 : s.reg.length + 1 ≤ heap.length := by
        have h := length_le_of_nodup_keys_lt hkeys1 hkeys1lt
        simpa using h
      have hnle : s.next ≤ heap.length := by
        have h2 := inv.nextEq
        omega
      have hnlt : s.next < msb_32bit := Nat.lt_of_le_of_lt hnle hsz
      have hmsb : msbSet (msb_32bit + s.next) = true := msbSet_add_of_lt hnlt
      have hstrip : stripMsb (msb_32bit + s.next) = s.next := stripMsb_add_of_lt hnlt
      obtain ⟨ob, hob⟩ : ∃ ob, heap[a]? = some ob :=
        ⟨heap[a], List.getElem?_eq_getElem haheap⟩
      have hokObj : okObj Γ a oty ob := hwt.2 a oty ob hΓ hob
      -- The matched states after registration on both sides.
      set s1 : SaveSt := { reg := (a, s.next) :: s.reg, next := s.next + 1 } with hs1
      set l1 : LoadSt :=
        { reg := (s.next, l.heap.length) :: l.reg, heap := l.heap ++ [defaultObj oty] }
        with hl1
      have hids1 : ∀ p ∈ s1.reg, 1 ≤ p.2 ∧ p.2 < s1.next := by
        intro p hp
        have h2 := inv.nextEq
        rcases List.mem_cons.mp hp with rfl | hp
        · simp only [hs1]
          omega
        · have := inv.idsBounds p hp
          simp only [hs1]
          omega
      have hidsnd1 : (s1.reg.map Prod.snd).Nodup := by
        simp only [hs1, List.map_cons, List.nodup_cons]
        refine ⟨?_, inv.idsNodup⟩
        intro hmem
        rcases List.mem_map.mp hmem with ⟨p, hp, hp2⟩
        have := (inv.idsBounds p hp).2
        omega
      have inv1 : SimInv Γ heap a s1 l1 := by
        refine ⟨?_, hkeys1, hkeys1lt, hids1, hidsnd1, ?_, ?_, ?_, ?_⟩
        · simp only [hs1, List.length_cons]
          have := inv.nextEq
          omega
        · simp only [hs1, hl1, List.map_cons]
          rw [inv.lkeysEq]
        · intro q hq
          rcases List.mem_cons.mp hq with rfl | hq
          · simp only [hl1, List.length_append, List.length_cons]
            omega
          · have := inv.lvalsLt q hq
            simp only [hl1, List.length_append, List.length_cons]
            omega
        · simp only [hl1, List.map_cons, List.nodup_cons]
          refine ⟨?_, inv.lvalsNodup⟩
          intro hmem
          rcases List.mem_map.mp hmem with ⟨q, hq, hq2⟩
          have := inv.lvalsLt q hq
          omega
        · -- completed entries below the new bound `a`
          intro p hp hpa
          rcases List.mem_cons.mp hp with rfl | hp
          · exact absurd hpa (by omega)
          · obtain ⟨a'p, obp, obp', hlkp, hhp, hlp, hmp⟩ :=
              inv.content p hp (Nat.lt_trans hpa ha)
            have hp2 : p.2 ≠ s.next := by
              have := (inv.idsBounds p hp).2
              omega
            have hap : a'p < l.heap.length :=
              inv.lvalsLt _ (mem_of_lookup_eq_some hlkp)
            refine ⟨a'p, obp, obp', ?_, hhp, ?_, ?_⟩
            · simp only [hl1, List.lookup_cons]
              rw [show (p.2 == s.next) = false by simp [hp2]]
              exact hlkp
            · simp only [hl1]
              rw [List.getElem?_append_left hap]
              exact hlp
            · refine mapObj_mono ?_ obp hmp
              intro x y hxy
              refine phi_extend ⟨[(a, s.next)], rfl⟩ ⟨[(s.next, l.heap.length)], rfl⟩
                hkeys1 ?_ hxy
              have h := hidsnd1
              simp only [hs1, List.map_cons] at h
              simp only [List.singleton_append, List.map_cons]
              rw [inv.lkeysEq]
              exact h
      obtain ⟨toks1, s2, ob', l2, hsave1, hload1, inv2, hmap2, step2⟩ :=
        simObj Γ heap a s1 l1 oty ob hwt (Nat.le_of_lt haheap) hsz inv1 hokObj
      obtain ⟨ns2, hnseq, hnsb⟩ := step2.sregExt
      obtain ⟨nl2, hnleq⟩ := step2.lregExt
      have hl1len : l1.heap.length = l.heap.length + 1 := by simp [hl1]
      have ha'l2 : l.heap.length < l2.heap.length := by
        have := step2.heapLe
        omega
      have memanext : (a, s.next) ∈ s2.reg := by
        rw [hnseq]
        exact List.mem_append.mpr (Or.inr (List.mem_cons_self _ _))
      have mema' : (s.next, l.heap.length) ∈ l2.reg := by
        rw [hnleq]
        exact List.mem_append.mpr (Or.inr (List.mem_cons_self _ _))
      have hlka : List.lookup a s2.reg = some s.next :=
        lookup_eq_some_of_mem_of_nodup memanext inv2.keysNodup
      have hlknext : List.lookup s.next l2.reg = some l.heap.length :=
        lookup_eq_some_of_mem_of_nodup mema' inv2.lkeysNodup
      have hphia : phi s2.reg l2.reg a = some l.heap.length := by
        simp only [phi, hlka, hlknext]
      have hs2ext : ∃ ns, s2.reg = ns ++ s.reg := by
        refine ⟨ns2 ++ [(a, s.next)], ?_⟩
        rw [hnseq, hs1, List.append_assoc]
        rfl
      have hl2ext : ∃ nl, l2.reg = nl ++ l.reg := by
        refine ⟨nl2 ++ [(s.next, l.heap.length)], ?_⟩
        rw [hnleq, hl1, List.append_assoc]
        rfl
      -- final load-side state: the reconstructed object is written back at its
      -- reserved address
      refine ⟨.idTok (msb_32bit + s.next) :: toks1, s2, some l.heap.length,
        ⟨l2.reg, l2.heap.set l.heap.length ob'⟩, ?_, ?_, ?_, ?_, ?_⟩
      · -- the save equation
        rw [saveShared]
        simp only [registerOccurrence, hlk, hmsb, if_true]
        rw [dif_pos ha, ← hs1]
        simp only [hob, hsave1]
      · -- the load equation
        intro rest
        rw [List.cons_append, loadSharedCore]
        simp only [hmsb, if_true, registerMaterialized, hstrip]
        rw [← hl1]
        simp only [hload1 rest]
      · -- the invariant at the outer bound
        refine ⟨inv2.nextEq, inv2.keysNodup, inv2.keysLt, inv2.idsBounds, inv2.idsNodup,
          by simpa using inv2.lkeysEq, ?_, by simpa using inv2.lvalsNodup, ?_⟩
        · intro q hq
          have := inv2.lvalsLt q hq
          simpa using this
        · intro p hp hpb
          rcases Nat.lt_trichotomy p.1 a with hlt | heq | hgt
          · -- completed before (or during) the recursive descent
            obtain ⟨a'p, obp, obp', hlkp, hhp, hlp, hmp⟩ := inv2.content p hp hlt
            have hne : a'p ≠ l.heap.length := by
              intro habs
              have memp2 : (p.2, a'p) ∈ l2.reg := mem_of_lookup_eq_some hlkp
              have := mem_eq_of_snd_nodup inv2.lvalsNodup memp2 mema' (by simpa using habs)
              have hp2 : p.2 = s.next := by
                have := congrArg Prod.fst this
                simpa using this
              have := mem_eq_of_snd_nodup inv2.idsNodup hp memanext (by simpa using hp2)
              have : p.1 = a := by
                have := congrArg Prod.fst this
                simpa using this
              omega
            refine ⟨a'p, obp, obp', hlkp, hhp, ?_, hmp⟩
            simpa using (List.getElem?_set_ne (Ne.symm hne)).trans hlp
          · -- the entry registered by this very call
            have hpeq : p = (a, s.next) :=
              mem_eq_of_fst_nodup inv2.keysNodup hp memanext (by simpa using heq)
            subst hpeq
            refine ⟨l.heap.length, ob, ob', hlknext, by simpa using hob, ?_, hmap2⟩
            simpa using List.getElem?_set_self ha'l2
          · -- entries that predate this call
            have hpold : p ∈ s.reg := by
              rw [hnseq] at hp
              rcases List.mem_append.mp hp with hnew | hcons
              · exact absurd (hnsb p hnew) (by omega)
              · rcases List.mem_cons.mp hcons with rfl | hold
                · exact absurd hgt (by simp)
                · exact hold
            obtain ⟨a'p, obp, obp', hlkp, hhp, hlp, hmp⟩ := inv.content p hpold hpb
            have hap : a'p < l.heap.length :=
              inv.lvalsLt _ (mem_of_lookup_eq_some hlkp)
            have hlkp2 : List.lookup p.2 l2.reg = some a'p := by
              rcases hl2ext with ⟨nl, hnl⟩
              rw [hnl]
              exact lookup_append_of_mem_right (hnl ▸ inv2.lkeysNodup) hlkp
            refine ⟨a'p, obp, obp', hlkp2, hhp, ?_, ?_⟩
            · have h1 : (l2.heap.set l.heap.length ob')[a'p]? = l2.heap[a'p]? :=
                List.getElem?_set_ne (by omega)
              have h2 : l2.heap[a'p]? = l1.heap[a'p]? := step2.heapFrame a'p (by omega)
              have h3 : l1.heap[a'p]? = l.heap[a'p]? := by
                simp only [hl1]
                exact List.getElem?_append_left hap
              simpa using h1.trans (h2.trans (h3.trans hlp))
            · refine mapObj_mono ?_ obp hmp
              intro x y hxy
              exact phi_extend hs2ext hl2ext inv2.keysNodup inv2.lkeysNodup hxy
      · -- the value correspondence
        simp only [mapPtr, hphia]
      · -- the extension facts
        refine ⟨?_, ?_, ?_, ?_, ?_⟩
        · refine ⟨ns2 ++ [(a, s.next)], ?_, ?_⟩
          · rw [hnseq, hs1, List.append_assoc]
            rfl
          · intro p hp
            rcases List.mem_append.mp hp with hn | hone
            · exact Nat.lt_trans (hnsb p hn) ha
            · rcases List.mem_singleton.mp hone with rfl
              exact ha
        · have := step2.nextLe
          simp only [hs1] at this
          omega
        · rcases hl2ext with ⟨nl, hnl⟩
          exact ⟨nl, by simpa using hnl⟩
        · have := step2.heapLe
          simp only [List.length_set]
          omega
        · intro j hj
          have h1 : (l2.heap.set l.heap.length ob')[j]? = l2.heap[j]? :=
            List.getElem?_set_ne (by omega)
          have h2 : l2.heap[j]? = l1.heap[j]? := step2.heapFrame j (by omega)
          have h3 : l1.heap[j]? = l.heap[j]? := by
            simp only [hl1]
            exact List.getElem?_append_left hj
          simpa using h1.trans (h2.trans h3)
termination_by (bound, 0)

/-- Saving a well-typed pointee succeeds and loads back to the `phi`-renamed
object, maintaining the invariant. -/
theorem simObj (Γ : List OTy) (heap : List Obj) (bound : Nat) (s : SaveSt) (l : LoadSt)
    (oty : OTy) (ob : Obj)
    (hwt : HeapWT Γ heap) (hb : bound ≤ heap.length) (hsz : heap.length < msb_32bit)
    (inv : SimInv Γ heap bound s l) (hok : okObj Γ bound oty ob) :
    ∃ toks s' ob' l',
      saveObj heap bound s ob = some (toks, s') ∧
      (∀ rest, loadObj oty (toks ++ rest) l = some (ob', rest, l')) ∧
      SimInv Γ heap bound s' l' ∧
      mapObj (phi s'.reg l'.reg) ob = some ob' ∧
      SimStep bound s s' l l' := by
  cases oty with
  | mk fts =>
    cases ob with
    | mk vs =>
      simp only [okObj] at hok
      obtain ⟨toks, s', vs', l', hsave, hload, inv', hmap, hstep⟩ :=
        simFields Γ heap bound s l fts vs hwt hb hsz inv hok
      refine ⟨toks, s', .mk vs', l', ?_, ?_, inv', ?_, hstep⟩
      · simp only [saveObj, hsave]
      · intro rest
        simp only [loadObj]
        rw [hload rest]
      · simp only [mapObj, hmap]
termination_by (bound, sizeOf ob)

/-- Saving a well-typed field list succeeds and loads back to the `phi`-renamed
fields, maintaining the invariant. -/
theorem simFields (Γ : List OTy) (heap : List Obj) (bound : Nat) (s : SaveSt) (l : LoadSt)
    (fts : List Ty) (vs : List Val)
    (hwt : HeapWT Γ heap) (hb : bound ≤ heap.length) (hsz : heap.length < msb_32bit)
    (inv : SimInv Γ heap bound s l) (hok : okFields Γ bound fts vs) :
    ∃ toks s' vs' l',
      saveFields heap bound s vs = some (toks, s') ∧
      (∀ rest, loadFields fts (toks ++ rest) l = some (vs', rest, l')) ∧
      SimInv Γ heap bound s' l' ∧
      mapFields (phi s'.reg l'.reg) vs = some vs' ∧
      SimStep bound s s' l l' := by
  cases fts with
  | nil =>
    cases vs with
    | nil =>
      refine ⟨[], s, [], l, by simp [saveFields], ?_, inv, by simp [mapFields],
        simStep_refl bound s l⟩
      intro rest
      simp [loadFields]
    | cons v vs => simp only [okFields] at hok
  | cons ft fts =>
    cases vs with
    | nil => simp only [okFields] at hok
    | cons v vs =>
      simp only [okFields] at hok
      obtain ⟨hokv, hokvs⟩ := hok
      obtain ⟨toks1, s1, v', l1, hsave1, hload1, inv1, hmap1, step1⟩ :=
        simVal Γ heap bound s l ft v hwt hb hsz inv hokv
      obtain ⟨toks2, s2, vs', l2, hsave2, hload2, inv2, hmap2, step2⟩ :=
        simFields Γ heap bound s1 l1 fts vs hwt hb hsz inv1 hokvs
      refine ⟨toks1 ++ toks2, s2, v' :: vs', l2, ?_, ?_, inv2, ?_,
        simStep_trans step1 step2⟩
      · simp only [saveFields, hsave1, hsave2]
      · intro rest
        rw [List.append_assoc]
        simp only [loadFields, hload1 (toks2 ++ rest), hload2 rest]
      · have hmap1' : mapVal (phi s2.reg l2.reg) v = some v' := by
          refine mapVal_mono ?_ v hmap1
          intro x y hxy
          refine phi_extend ?_ step2.lregExt inv2.keysNodup inv2.lkeysNodup hxy
          rcases step2.sregExt with ⟨ns, hns, -⟩
          exact ⟨ns, hns⟩
        simp only [mapFields, hmap1', hmap2]
termination_by (bound, sizeOf vs)
end

/-- The invariant holds between empty registries. -/
theorem simInv_init (Γ : List OTy) (heap : List Obj) (bound : Nat) :
    SimInv Γ heap bound initSaveSt initLoadSt := by
  refine ⟨rfl, by simp [initSaveSt], ?_, ?_, by simp [initSaveSt],
    by simp [initSaveSt, initLoadSt], ?_, by simp [initLoadSt], ?_⟩ <;>
    · intro p hp
      simp [initSaveSt, initLoadSt] at hp

/-! ## The claims -/

/-- **C3** — Round-trip with aliasing.  For every acyclic, well-typed object
graph (heap `heap` typed by `Γ`, root value `v` of static type `t`; acyclicity
is represented by a topological numbering of the heap), saving the root
succeeds, loading the produced byte stream back (at the same static type,
against the spec section-6 registry collaborator) succeeds and consumes the
whole stream, and the loaded graph is structurally equal to the original: the
loaded root is exactly the original with every shared/weak target renamed
through the single address translation `phi`, and every registered pointee's
reconstructed object is its original renamed the same way.  In particular two
shared pointers that referenced the same pointee in the original reference the
same reconstructed instance: the translation is a function of the original
address (last conjunct). -/
theorem roundTrip_shared_graph (Γ : List OTy) (heap : List Obj) (t : Ty) (v : Val)
    (hwt : HeapWT Γ heap) (hsz : heap.length < msb_32bit)
    (hok : okVal Γ heap.length t v) :
    ∃ toks sF vF lF,
      saveVal heap heap.length initSaveSt v = some (toks, sF) ∧
      loadVal t toks initLoadSt = some (vF, [], lF) ∧
      mapVal (phi sF.reg lF.reg) v = some vF ∧
      (∀ p ∈ sF.reg, ∃ a' ob ob',
          List.lookup p.2 lF.reg = some a' ∧ heap[p.1]? = some ob ∧
          lF.heap[a']? = some ob' ∧ mapObj (phi sF.reg lF.reg) ob = some ob') ∧
      (∀ a a1 a2, phi sF.reg lF.reg a = some a1 → phi sF.reg lF.reg a = some a2 →
        a1 = a2) := by
  obtain ⟨toks, s', v', l', hsave, hload, inv', hmap, -⟩ :=
    simVal Γ heap heap.length initSaveSt initLoadSt t v hwt (Nat.le_refl _) hsz
      (simInv_init Γ heap heap.length) hok
  refine ⟨toks, s', v', l', hsave, ?_, hmap, ?_, ?_⟩
  · have h := hload []
    simpa using h
  · intro p hp
    exact inv'.content p hp (inv'.keysLt p hp)
  · intro a a1 a2 h1 h2
    rw [h1] at h2
    exact Option.some.inj h2

/-- Witness for C3: a two-node graph — the root shared pointer owns object 1,
whose fields alias object 0 through a shared and a weak pointer. -/
theorem roundTrip_shared_graph_witness :
    HeapWT [OTy.mk [Ty.primT], OTy.mk [Ty.sharedT (OTy.mk [Ty.primT]),
        Ty.weakT (OTy.mk [Ty.primT])]]
      [Obj.mk [Val.prim 7], Obj.mk [Val.sharedP (some 0), Val.weakP (some 0)]] ∧
    (∃ toks sF vF lF,
      saveVal [Obj.mk [Val.prim 7], Obj.mk [Val.sharedP (some 0), Val.weakP (some 0)]] 2
          initSaveSt (.sharedP (some 1)) = some (toks, sF) ∧
      loadVal (.sharedT (OTy.mk [Ty.sharedT (OTy.mk [Ty.primT]),
          Ty.weakT (OTy.mk [Ty.primT])])) toks initLoadSt = some (vF, [], lF) ∧
      mapVal (phi sF.reg lF.reg) (.sharedP (some 1)) = some vF ∧
      (∀ p ∈ sF.reg, ∃ a' ob ob',
          List.lookup p.2 lF.reg = some a' ∧
          [Obj.mk [Val.prim 7], Obj.mk [Val.sharedP (some 0), Val.weakP (some 0)]][p.1]? =
            some ob ∧
          lF.heap[a']? = some ob' ∧ mapObj (phi sF.reg lF.reg) ob = some ob') ∧
      (∀ a a1 a2, phi sF.reg lF.reg a = some a1 → phi sF.reg lF.reg a = some a2 →
        a1 = a2)) := by
  have hwt : HeapWT [OTy.mk [Ty.primT], OTy.mk [Ty.sharedT (OTy.mk [Ty.primT]),
      Ty.weakT (OTy.mk [Ty.primT])]]
      [Obj.mk [Val.prim 7], Obj.mk [Val.sharedP (some 0), Val.weakP (some 0)]] := by
    refine ⟨rfl, ?_⟩
    intro a oty ob h1 h2
    match a with
    | 0 =>
      simp at h1 h2
      subst h1
      subst h2
      simp [okObj, okFields, okVal]
    | 1 =>
      simp at h1 h2
      subst h1
      subst h2
      simp [okObj, okFields, okVal, okPtr]
    | (n + 2) => simp at h1
  refine ⟨hwt, ?_⟩
  exact roundTrip_shared_graph _ _ _ _ hwt (by decide)
    (by simp [okVal, okPtr])

/-- After the pointee at address 0 has been registered, every further shared
pointer to it saves as a bare back-reference carrying only the plain
identifier. -/
theorem saveFields_replicate_backrefs (m k : Nat) :
    saveFields [Obj.mk [Val.prim m]] 1 ⟨[(0, 1)], 2⟩
        (List.replicate k (.sharedP (some 0))) =
      some (List.replicate k (.idTok 1), ⟨[(0, 1)], 2⟩) := by
  induction k with
  | zero =>
    rw [List.replicate, saveFields]
    rfl
  | succ n ih =>
    rw [List.replicate_succ, saveFields]
    have h1 : msbSet 1 = false := msbSet_of_lt (by decide)
    rw [show saveVal [Obj.mk [Val.prim m]] 1 ⟨[(0, 1)], 2⟩ (.sharedP (some 0)) =
        some ([.idTok 1], ⟨[(0, 1)], 2⟩) by
      rw [saveVal, saveShared]
      simp [registerOccurrence, h1]]
    simp only [ih, List.replicate_succ]
    rfl

/-- **C4** — Deduplicated save.  First conjunct: every shared-pointer save
emits the registry-resolved identifier and emits the pointee's data if and only
if that identifier carries the first-occurrence (top) bit.  Second conjunct: a
graph in which N shared owners point at one distinct pointee (a field list of N
shared pointers to address 0, holding a single `prim m` payload) emits the
pointee's data exactly once — the full emitted stream is one first-occurrence
identifier followed by the payload and then N−1 bare back-reference
identifiers, so the payload-token count is 1 and the count of identifiers
without the occurrence bit is N−1. -/
theorem save_emits_data_iff_first_occurrence :
    (∀ heap bound st pa toks st',
      saveVal heap bound st (.sharedP pa) = some (toks, st') →
      ∃ id st1, registerOccurrence st pa = (id, st1) ∧
        ((msbSet id = true ∧ ∃ a ob payload st2, pa = some a ∧ heap[a]? = some ob ∧
            saveObj heap a st1 ob = some (payload, st2) ∧
            toks = .idTok id :: payload ∧ st' = st2) ∨
         (msbSet id = false ∧ toks = [.idTok id] ∧ st' = st1))) ∧
    (∀ N m, 1 ≤ N →
      saveFields [Obj.mk [Val.prim m]] 1 initSaveSt
          (List.replicate N (.sharedP (some 0))) =
        some (Tok.idTok (msb_32bit + 1) :: Tok.primTok m ::
            List.replicate (N - 1) (Tok.idTok 1),
          ⟨[(0, 1)], 2⟩) ∧
      (Tok.idTok (msb_32bit + 1) :: Tok.primTok m ::
          List.replicate (N - 1) (Tok.idTok 1)).countP
        (fun tk => match tk with | .primTok _ => true | _ => false) = 1 ∧
      (Tok.idTok (msb_32bit + 1) :: Tok.primTok m ::
          List.replicate (N - 1) (Tok.idTok 1)).countP
        (fun tk => match tk with | .idTok i => !msbSet i | _ => false) = N - 1) := by
  constructor
  · intro heap bound st pa toks st' h
    rw [saveVal, saveShared] at h
    rcases hreg : registerOccurrence st pa with ⟨id, st1⟩
    simp only [hreg] at h
    refine ⟨id, st1, rfl, ?_⟩
    cases hmsb : msbSet id with
    | false =>
      rw [hmsb] at h
      simp at h
      exact Or.inr ⟨rfl, h.1.symm, h.2.symm⟩
    | true =>
      rw [hmsb] at h
      simp only [if_true] at h
      cases pa with
      | none => cases h
      | some a =>
        dsimp only at h
        refine Or.inl ⟨rfl, a, ?_⟩
        by_cases hab : a < bound
        · rw [dif_pos hab] at h
          cases hob : heap[a]? with
          | none =>
            simp only [hob] at h
            exact Option.noConfusion h
          | some ob =>
            simp only [hob] at h
            cases hso : saveObj heap a st1 ob with
            | none =>
              simp only [hso] at h
              exact Option.noConfusion h
            | some r =>
              rcases r with ⟨payload, st2⟩
              simp only [hso, Option.some.injEq, Prod.mk.injEq] at h
              exact ⟨ob, payload, st2, rfl, rfl, hso, h.1.symm, h.2.symm⟩
        · rw [dif_neg hab] at h
          cases h
  · intro N m hN
    have h1 : msbSet 1 = false := msbSet_of_lt (by decide)
    have hmsb : msbSet (msb_32bit + 1) = true := msbSet_add_of_lt (by decide)
    refine ⟨?_, ?_, ?_⟩
    · obtain ⟨k, rfl⟩ : ∃ k, N = k + 1 := ⟨N - 1, by omega⟩
      rw [List.replicate_succ, saveFields]
      rw [show saveVal [Obj.mk [Val.prim m]] 1 initSaveSt (.sharedP (some 0)) =
          some ([.idTok (msb_32bit + 1), .primTok m], ⟨[(0, 1)], 2⟩) by
        rw [saveVal, saveShared]
        simp only [registerOccurrence, initSaveSt, List.lookup_nil, hmsb, if_true]
        rw [dif_pos (by decide)]
        simp only [List.getElem?_cons_zero]
        rw [saveObj, saveFields]
        have hprim : saveVal [Obj.mk [Val.prim m]] 0 ⟨[(0, 1)], 2⟩ (.prim m) =
            some ([.primTok m], ⟨[(0, 1)], 2⟩) := by rw [saveVal]
        have hnil : saveFields [Obj.mk [Val.prim m]] 0 ⟨[(0, 1)], 2⟩ ([] : List Val) =
            some ([], ⟨[(0, 1)], 2⟩) := by rw [saveFields]
        simp only [hprim, hnil]
        rfl]
      simp only [saveFields_replicate_backrefs]
      simp
    · simp [List.countP_cons, List.countP_replicate]
    · simp [List.countP_cons, List.countP_replicate, h1, hmsb]

/-- Witness for C4: a concrete first-occurrence save, and the dedup stream for
three owners of one pointee. -/
theorem save_emits_data_iff_first_occurrence_witness :
    (∃ id st1, registerOccurrence initSaveSt (some 0) = (id, st1) ∧
      ((msbSet id = true ∧ ∃ a ob payload st2, (some 0 : Option Nat) = some a ∧
          [Obj.mk [Val.prim 5]][a]? = some ob ∧
          saveObj [Obj.mk [Val.prim 5]] a st1 ob = some (payload, st2) ∧
          [Tok.idTok (msb_32bit + 1), Tok.primTok 5] = .idTok id :: payload ∧
          (⟨[(0, 1)], 2⟩ : SaveSt) = st2) ∨
       (msbSet id = false ∧ [Tok.idTok (msb_32bit + 1), Tok.primTok 5] = [.idTok id] ∧
          (⟨[(0, 1)], 2⟩ : SaveSt) = st1))) ∧
    saveFields [Obj.mk [Val.prim 5]] 1 initSaveSt
        (List.replicate 3 (.sharedP (some 0))) =
      some (.idTok (msb_32bit + 1) :: .primTok 5 :: List.replicate 2 (.idTok 1),
        ⟨[(0, 1)], 2⟩) := by
  have hmsb : msbSet (msb_32bit + 1) = true := msbSet_add_of_lt (by decide)
  have hsave : saveVal [Obj.mk [Val.prim 5]] 1 initSaveSt (.sharedP (some 0)) =
      some ([Tok.idTok (msb_32bit + 1), Tok.primTok 5], ⟨[(0, 1)], 2⟩) := by
    rw [saveVal, saveShared]
    simp only [registerOccurrence, initSaveSt, List.lookup_nil, hmsb, if_true]
    rw [dif_pos (by decide)]
    simp only [List.getElem?_cons_zero]
    rw [saveObj, saveFields]
    have hprim : saveVal [Obj.mk [Val.prim 5]] 0 ⟨[(0, 1)], 2⟩ (.prim 5) =
        some ([.primTok 5], ⟨[(0, 1)], 2⟩) := by rw [saveVal]
    have hnil : saveFields [Obj.mk [Val.prim 5]] 0 ⟨[(0, 1)], 2⟩ ([] : List Val) =
        some ([], ⟨[(0, 1)], 2⟩) := by rw [saveFields]
    simp only [hprim, hnil]
    rfl
  constructor
  · exact save_emits_data_iff_first_occurrence.1 [Obj.mk [Val.prim 5]] 1 initSaveSt
      (some 0) [Tok.idTok (msb_32bit + 1), Tok.primTok 5] ⟨[(0, 1)], 2⟩ hsave
  · exact (save_emits_data_iff_first_occurrence.2 3 5 (by decide)).1

/-- **C1** (code bug) — Construction-failure safety of the shared-pointer
`load_and_construct` path.  The failure is surfaced and the validity flag
becomes true only on successful completion (first four conjuncts), but the
release routine does *not* check that flag: the deleter's condition
`if( valid )` (memory.hpp:270) tests the captured `std::shared_ptr<bool>`
handle, which `std::make_shared` made non-null, so it invokes `t->~T()`
unconditionally — in particular on the never-constructed instance after a hook
failure (last conjunct), contradicting the claim and the code's own comment
(memory.hpp:260-262). -/
theorem sharedHookLoad_failure_runs_dtor_on_uninitialized :
    (runSharedHookLoad false).failureSurfaced = true ∧
    (runSharedHookLoad false).validValue = false ∧
    (runSharedHookLoad true).validValue = true ∧
    (runSharedHookLoad false).constructed = false ∧
    (∀ b : Bool, sharedHookDeleterRunsDtor false b = true) ∧
    sharedHookDeleterRunsDtor (runSharedHookLoad false).validHandleNull
      (runSharedHookLoad false).validValue = true := by
  decide

/-- **C2** — Registration precedes recursive pointee deserialization.  In both
shared-pointer load variants, whenever the read identifier has the
first-occurrence bit set, the freshly created owner is registered under that
identifier strictly before the pointee's fields are deserialized (the traces
place `registerOwner` before `loadPointeeData`), and consequently a
self-referential back-reference read during those fields resolves to this very
owner (last conjunct: loading a self-cycle yields an object whose field points
back at its own address). -/
theorem registration_precedes_pointee_deserialization (id : Nat)
    (h : msbSet id = true) :
    loadSharedHookTrace id =
      [.readField "id", .allocRaw, .registerOwner id, .loadPointeeData, .markValid] ∧
    loadSharedNoHookTrace id =
      [.readField "id", .defaultConstruct, .registerOwner id, .loadPointeeData] ∧
    (∃ pre post, loadSharedHookTrace id = pre ++ .registerOwner id :: post ∧
      LAct.loadPointeeData ∉ pre ∧ LAct.loadPointeeData ∈ post) ∧
    (∃ pre post, loadSharedNoHookTrace id = pre ++ .registerOwner id :: post ∧
      LAct.loadPointeeData ∉ pre ∧ LAct.loadPointeeData ∈ post) ∧
    loadVal (.sharedT (.mk [.sharedT (.mk [])]))
        [.idTok (msb_32bit + 1), .idTok 1] initLoadSt =
      some (.sharedP (some 0), [], ⟨[(1, 0)], [Obj.mk [Val.sharedP (some 0)]]⟩) := by
  have hmsb : msbSet (msb_32bit + 1) = true := msbSet_add_of_lt (by decide)
  have hstrip : stripMsb (msb_32bit + 1) = 1 := stripMsb_add_of_lt (by decide)
  have h1 : msbSet 1 = false := msbSet_of_lt (by decide)
  refine ⟨by simp [loadSharedHookTrace, h], by simp [loadSharedNoHookTrace, h],
    ⟨[.readField "id", .allocRaw], [.loadPointeeData, .markValid],
      by simp [loadSharedHookTrace, h], by decide, by decide⟩,
    ⟨[.readField "id", .defaultConstruct], [.loadPointeeData],
      by simp [loadSharedNoHookTrace, h], by decide, by decide⟩, ?_⟩
  rw [loadVal]
  rw [show loadSharedCore (.mk [.sharedT (.mk [])])
      [.idTok (msb_32bit + 1), .idTok 1] initLoadSt =
      some (some 0, [], ⟨[(1, 0)], [Obj.mk [Val.sharedP (some 0)]]⟩) from ?_]
  · rw [loadSharedCore]
    simp only [hmsb, if_true, initLoadSt, registerMaterialized, hstrip,
      List.nil_append, List.length_nil]
    have hcore1 : loadSharedCore (.mk ([] : List Ty)) [Tok.idTok 1]
        ⟨[(1, 0)], [defaultObj (.mk [.sharedT (.mk [])])]⟩ =
        some (some 0, [], ⟨[(1, 0)], [defaultObj (.mk [.sharedT (.mk [])])]⟩) := by
      rw [loadSharedCore]
      simp [h1, resolveMaterialized]
    have hval1 : loadVal (.sharedT (.mk ([] : List Ty))) [Tok.idTok 1]
        ⟨[(1, 0)], [defaultObj (.mk [.sharedT (.mk [])])]⟩ =
        some (.sharedP (some 0), [], ⟨[(1, 0)], [defaultObj (.mk [.sharedT (.mk [])])]⟩) := by
      rw [loadVal, hcore1]
    have hfnil : loadFields ([] : List Ty) ([] : List Tok)
        ⟨[(1, 0)], [defaultObj (.mk [.sharedT (.mk [])])]⟩ =
        some ([], [], ⟨[(1, 0)], [defaultObj (.mk [.sharedT (.mk [])])]⟩) := by
      rw [loadFields]
    have hfields : loadFields [Ty.sharedT (.mk ([] : List Ty))] [Tok.idTok 1]
        ⟨[(1, 0)], [defaultObj (.mk [.sharedT (.mk [])])]⟩ =
        some ([.sharedP (some 0)], [],
          ⟨[(1, 0)], [defaultObj (.mk [.sharedT (.mk [])])]⟩) := by
      rw [loadFields]
      simp only [hval1, hfnil]
    have hobj : loadObj (.mk [.sharedT (.mk ([] : List Ty))]) [Tok.idTok 1]
        ⟨[(1, 0)], [defaultObj (.mk [.sharedT (.mk [])])]⟩ =
        some (.mk [.sharedP (some 0)], [],
          ⟨[(1, 0)], [defaultObj (.mk [.sharedT (.mk [])])]⟩) := by
      rw [loadObj]
      simp only [hfields]
    simp only [hobj]
    simp [defaultObj, defaultVal]

/-- Witness for C2: the ordering facts instantiated at the concrete
first-occurrence identifier `msb_32bit + 1`. -/
theorem registration_precedes_pointee_deserialization_witness :
    msbSet (msb_32bit + 1) = true ∧
    loadSharedHookTrace (msb_32bit + 1) =
      [.readField "id", .allocRaw, .registerOwner (msb_32bit + 1),
       .loadPointeeData, .markValid] ∧
    loadSharedNoHookTrace (msb_32bit + 1) =
      [.readField "id", .defaultConstruct, .registerOwner (msb_32bit + 1),
       .loadPointeeData] :=
  ⟨msbSet_add_of_lt (by decide),
   (registration_precedes_pointee_deserialization (msb_32bit + 1)
      (msbSet_add_of_lt (by decide))).1,
   (registration_precedes_pointee_deserialization (msb_32bit + 1)
      (msbSet_add_of_lt (by decide))).2.1⟩

/-- **C5** (code bug) — Named-field framing.  Every identifier, validity byte
and pointee payload is emitted/consumed through a named frame ("id", "valid",
"data") in the shared save, both shared loads, the unique save and the unique
`load_and_construct` load — but the exclusive-ownership load *without* a
construction hook consumes the pointee payload through the bare call
`ar( *ptr )` (memory.hpp:379), with no field name, even though the matching
save emitted that payload under the name "data" (memory.hpp:327).  The last
three conjuncts evaluate the asymmetry. -/
theorem uniqueNoHookLoad_consumes_data_unframed :
    (∀ b : Bool, (saveSharedFrames b).all Option.isSome = true) ∧
    (∀ b : Bool, (loadSharedHookFrames b).all Option.isSome = true) ∧
    (∀ b : Bool, (loadSharedNoHookFrames b).all Option.isSome = true) ∧
    (∀ b : Bool, (saveUniqueFrames b).all Option.isSome = true) ∧
    (∀ b : Bool, (loadUniqueHookFrames b).all Option.isSome = true) ∧
    saveUniqueFrames true = [some "valid", some "data"] ∧
    loadUniqueNoHookFrames true = [some "valid", none] ∧
    (loadUniqueNoHookFrames true).all Option.isSome = false := by
  decide

/-- **C6** — Exclusive-ownership deferred construction with failure.  With a
nonzero validity byte, ownership is transferred to the target unique_ptr
exactly when the construction hook completes; on hook failure the failure is
surfaced and the raw storage is freed during unwinding; and in no scenario
(any validity byte, hook completing or throwing) does the pointee type's
destructor run on the storage. -/
theorem uniqueHookLoad_failure_frees_storage_without_dtor :
    (∀ hookOk : Bool, (runUniqueHookLoad 1 hookOk).ownershipTransferred = hookOk) ∧
    (runUniqueHookLoad 1 false).failureSurfaced = true ∧
    (runUniqueHookLoad 1 false).rawFreedOnUnwind = true ∧
    (runUniqueHookLoad 1 false).ownershipTransferred = false ∧
    (runUniqueHookLoad 1 true).rawFreedOnUnwind = false ∧
    (∀ v : Nat, ∀ hookOk : Bool, (runUniqueHookLoad v hookOk).pointeeDtorRan = false) := by
  refine ⟨by decide, by decide, by decide, by decide, by decide, ?_⟩
  intro v hookOk
  unfold runUniqueHookLoad
  split
  · split <;> rfl
  · rfl

/-- **C7** — The self-reference guard restores the base subobject's exact byte
image.  For a pointee with the self-reference capability, the guarded load
(capture, construction step, restore) leaves every byte of the
`enable_shared_from_this` base subobject equal to its value at the moment the
guard captured it, for every construction step whatsoever. -/
theorem sft_guard_restores_base_image (L : SFTLayout) (step : Mem → Mem) (m : Mem)
    (a : Nat) (h1 : L.baseOff ≤ a) (h2 : a < L.baseOff + L.parentSize) :
    loadAndConstructSharedPtrSFT L step m a = m a := by
  unfold loadAndConstructSharedPtrSFT restoreState
  rw [if_pos ⟨h1, h2⟩]
  unfold captureState
  have hidx : a - L.baseOff < L.parentSize := by omega
  rw [List.getD_eq_getElem?_getD, List.getElem?_map, List.getElem?_range hidx]
  simp only [Option.map_some', Option.getD_some]
  congr 1
  omega

/-- Witness for C7: a concrete guarded load whose construction step zeroes all
memory; the byte inside the base range still reads back its pre-step value. -/
theorem sft_guard_restores_base_image_witness :
    (4 : Nat) ≤ 5 ∧ (5 : Nat) < 4 + 2 ∧
    loadAndConstructSharedPtrSFT ⟨4, 2⟩ (fun _ => fun _ => 0) (fun a => a + 10) 5 = 15 :=
  ⟨by decide, by decide,
   (sft_guard_restores_base_image ⟨4, 2⟩ (fun _ => fun _ => 0) (fun a => a + 10) 5
      (by decide) (by decide)).trans rfl⟩

/-- **C8** — Null pointers.  A null shared/weak pointer saves as the reserved
identifier 0 with no data, a null unique pointer saves as validity byte 0 with
no data, and each loads back as null leaving the load state untouched — no
registration, no heap growth, hence no construction.  The trace and
`load_and_construct` conjuncts confirm that the non-first-occurrence and
invalid branches perform no allocation, no default construction and no hook
invocation. -/
theorem null_pointer_save_load (heap : List Obj) (bound : Nat) (st : SaveSt)
    (oty : OTy) (rest : List Tok) (l : LoadSt) :
    saveVal heap bound st (.sharedP none) = some ([.idTok 0], st) ∧
    saveVal heap bound st (.weakP none) = some ([.idTok 0], st) ∧
    saveVal heap bound st (.uniqueP none) = some ([.validTok 0], st) ∧
    loadVal (.sharedT oty) (.idTok 0 :: rest) l = some (.sharedP none, rest, l) ∧
    loadVal (.weakT oty) (.idTok 0 :: rest) l = some (.weakP none, rest, l) ∧
    loadVal (.uniqueT oty) (.validTok 0 :: rest) l = some (.uniqueP none, rest, l) ∧
    loadSharedHookTrace 0 = [.readField "id", .resolveBackRef 0] ∧
    loadSharedNoHookTrace 0 = [.readField "id", .resolveBackRef 0] ∧
    runUniqueHookLoad 0 true =
      { failureSurfaced := false, rawAllocated := false, rawFreedOnUnwind := false,
        pointeeDtorRan := false, ownershipTransferred := false } := by
  have h0 : msbSet 0 = false := by decide
  have hcore : loadSharedCore oty (.idTok 0 :: rest) l = some (none, rest, l) := by
    rw [loadSharedCore]
    simp [h0, resolveMaterialized]
  refine ⟨?_, ?_, ?_, ?_, ?_, ?_, ?_, ?_, ?_⟩
  · rw [saveVal, saveShared]
    simp [registerOccurrence, h0]
  · rw [saveVal]
    rw [saveShared]
    simp [lockW, registerOccurrence, h0]
  · rw [saveVal]
  · rw [loadVal, hcore]
  · rw [loadVal, hcore]
  · rw [loadVal]
    simp
  · simp [loadSharedHookTrace, h0]
  · simp [loadSharedNoHookTrace, h0]
  · decide

/-- **C9** — The weak-reference adapter is the shared-ownership adapter
composed with lock (save side) and downgrade (load side): saving a weak
pointer emits exactly the tokens of saving the locked shared pointer, and
loading at weak type is loading at shared type followed by downgrading the
temporary owner to a weak reference. -/
theorem weak_adapter_is_shared_with_lock_and_downgrade (heap : List Obj) (bound : Nat)
    (st : SaveSt) (pa : Option Nat) (oty : OTy) (toks : List Tok) (l : LoadSt) :
    saveVal heap bound st (.weakP pa) = saveVal heap bound st (.sharedP (lockW pa)) ∧
    loadVal (.weakT oty) toks l =
      (loadVal (.sharedT oty) toks l).map (fun r => (downgrade r.1, r.2.1, r.2.2)) := by
  constructor
  · rw [saveVal, saveVal]
  · rw [loadVal, loadVal]
    cases hcore : loadSharedCore oty toks l with
    | none => simp
    | some r =>
      rcases r with ⟨pa', ts, l'⟩
      simp [downgrade]

/-- **C10** — The guard's frame: capture and restore touch exactly the
`sizeof(ParentType)` bytes at the base-subobject address.  Every byte outside
`[baseOff, baseOff + parentSize)` reads, after the guarded load, exactly what
the construction step wrote there (first conjunct — the guard itself leaves it
untouched); the captured image is exactly `parentSize` bytes (second
conjunct); and the capture reads nothing outside the base range: it is
determined by the base-range bytes alone (third conjunct). -/
theorem sft_guard_frame (L : SFTLayout) (step : Mem → Mem) (m : Mem) :
    (∀ a, a < L.baseOff ∨ L.baseOff + L.parentSize ≤ a →
        loadAndConstructSharedPtrSFT L step m a = step m a) ∧
    (captureState L m).length = L.parentSize ∧
    (∀ m' : Mem, (∀ i, i < L.parentSize → m (L.baseOff + i) = m' (L.baseOff + i)) →
        captureState L m = captureState L m') := by
  refine ⟨?_, ?_, ?_⟩
  · intro a ha
    unfold loadAndConstructSharedPtrSFT restoreState
    rw [if_neg (by omega)]
  · simp [captureState]
  · intro m' hm
    unfold captureState
    apply List.map_congr_left
    intro i hi
    exact hm i (List.mem_range.mp hi)

/-- Witness for C10: with the same concrete layout and zeroing step as the C7
witness, a byte outside the base range reads the step's value. -/
theorem sft_guard_frame_witness :
    ((7 : Nat) < 4 ∨ (4 : Nat) + 2 ≤ 7) ∧
    loadAndConstructSharedPtrSFT ⟨4, 2⟩ (fun _ => fun _ => 0) (fun a => a + 10) 7 = 0 :=
  ⟨Or.inr (by decide),
   ((sft_guard_frame ⟨4, 2⟩ (fun _ => fun _ => 0) (fun a => a + 10)).1 7
      (Or.inr (by decide))).trans rfl⟩

end Cereal
